import Mathlib

/-!
Verification of the code-generation core of dprint-plugin-typescript
(src/src/generation/generate.rs). Each section shallowly embeds the part of
the source a claim is about, then proves or refutes the claim. Machine
integers from the source are modelled as Nat, fallible lookups as Option,
and stateful comment tracking as explicit state passing.
-/

namespace DprintTs

/-! ## Characters

Quote characters are defined by code point so that the embedding does not
depend on escape handling in this file itself. -/

def dquoteChar : Char := Char.ofNat 34

def squoteChar : Char := Char.ofNat 39

def backslashChar : Char := Char.ofNat 92

/-! ## String literal quote selection (gen_string_literal, generate.rs 3485-3547)

The source works on the unescaped string value. We embed the value as a list
of characters and the helper functions of get_string_literal_text verbatim:
countChar mirrors the counting loop of double_to_single, replace_escape
mirrors str::replace of one character by a backslash plus that character. -/

/-- Counting loop of double_to_single: number of occurrences of a character. -/
def countChar (q : Char) : List Char → Nat
  | [] => 0
  | c :: rest => (if c == q then 1 else 0) + countChar q rest

/-- Embeds string_value.replace(q, backslash-q) from format_with_double and
format_with_single. -/
def replace_escape (q : Char) : List Char → List Char
  | [] => []
  | c :: rest => (if c == q then [backslashChar, q] else [c]) ++ replace_escape q rest

/-- Embeds format_with_double: wrap in double quotes, escaping double quotes. -/
def format_with_double (string_value : List Char) : List Char :=
  dquoteChar :: (replace_escape dquoteChar string_value ++ [dquoteChar])

/-- Embeds format_with_single: wrap in single quotes, escaping single quotes. -/
def format_with_single (string_value : List Char) : List Char :=
  squoteChar :: (replace_escape squoteChar string_value ++ [squoteChar])

/-- Embeds double_to_single: double quote count minus single quote count. -/
def double_to_single (string_value : List Char) : Int :=
  (countChar dquoteChar string_value : Int) - (countChar squoteChar string_value : Int)

/-- Embeds handle_prefer_double. -/
def handle_prefer_double (string_value : List Char) : List Char :=
  if double_to_single string_value ≤ 0 then format_with_double string_value
  else format_with_single string_value

/-- Embeds handle_prefer_single. -/
def handle_prefer_single (string_value : List Char) : List Char :=
  if double_to_single string_value ≥ 0 then format_with_single string_value
  else format_with_double string_value

/-- Quote style options of the configuration, as dispatched on in
get_string_literal_text. -/
inductive QuoteStyle
  | AlwaysDouble
  | AlwaysSingle
  | PreferDouble
  | PreferSingle
  deriving DecidableEq

/-- JSX quote style options of the configuration. -/
inductive JsxQuoteStyle
  | PreferDouble
  | PreferSingle
  deriving DecidableEq

/-- The two configuration fields read by get_string_literal_text. -/
structure QuoteConfig where
  quote_style : QuoteStyle
  jsx_quote_style : JsxQuoteStyle
  deriving DecidableEq

/-- Embeds get_string_literal_text of gen_string_literal. The flag
is_jsx_attribute is node.parent().is JSXAttr at the call site. -/
def get_string_literal_text (string_value : List Char) (is_jsx_attribute : Bool)
    (cfg : QuoteConfig) : List Char :=
  if is_jsx_attribute then
    match cfg.jsx_quote_style with
    | JsxQuoteStyle.PreferDouble => handle_prefer_double string_value
    | JsxQuoteStyle.PreferSingle => handle_prefer_single string_value
  else
    match cfg.quote_style with
    | QuoteStyle.AlwaysDouble => format_with_double string_value
    | QuoteStyle.AlwaysSingle => format_with_single string_value
    | QuoteStyle.PreferDouble => handle_prefer_double string_value
    | QuoteStyle.PreferSingle => handle_prefer_single string_value

/-- Scanning check that every occurrence of q in a character list is
immediately preceded by a backslash. The first argument tracks the previous
character. -/
def quote_escaped_ok (q : Char) : Option Char → List Char → Bool
  | _, [] => true
  | prev, c :: rest =>
    ((!(c == q)) || prev == some backslashChar) && quote_escaped_ok q (some c) rest

theorem quote_escaped_ok_replace (q : Char) (hq : q ≠ backslashChar) :
    ∀ (v : List Char) (prev : Option Char),
      quote_escaped_ok q prev (replace_escape q v) = true := by
  intro v
  induction v with
  | nil => intro prev; rfl
  | cons c rest ih =>
    intro prev
    by_cases hc : c == q
    · have hbs : (backslashChar == q) = false := by
        apply beq_eq_false_iff_ne.mpr
        intro h
        exact hq h.symm
      simp [replace_escape, hc, quote_escaped_ok, hbs, ih]
    · simp only [Bool.not_eq_true] at hc
      simp [replace_escape, hc, quote_escaped_ok, ih]

theorem countChar_replace_other (p q : Char) (hpq : p ≠ q) (hpb : p ≠ backslashChar) :
    ∀ v : List Char, countChar p (replace_escape q v) = countChar p v := by
  intro v
  induction v with
  | nil => rfl
  | cons c rest ih =>
    by_cases hc : c == q
    · have h1 : (backslashChar == p) = false := beq_eq_false_iff_ne.mpr (fun h => hpb h.symm)
      have h2 : (q == p) = false := beq_eq_false_iff_ne.mpr (fun h => hpq h.symm)
      have hcq : c = q := eq_of_beq hc
      simp [replace_escape, hc, countChar, h1, h2, ih, hcq]
    · simp only [Bool.not_eq_true] at hc
      simp [replace_escape, hc, countChar, ih]

theorem countChar_replace_backslash (q : Char) (hq : q ≠ backslashChar) :
    ∀ v : List Char,
      countChar backslashChar (replace_escape q v)
        = countChar backslashChar v + countChar q v := by
  intro v
  induction v with
  | nil => rfl
  | cons c rest ih =>
    by_cases hc : c == q
    · have hcq : c = q := eq_of_beq hc
      have h1 : (q == backslashChar) = false := beq_eq_false_iff_ne.mpr hq
      simp [replace_escape, hc, countChar, h1, ih, hcq]
      omega
    · simp only [Bool.not_eq_true] at hc
      simp [replace_escape, hc, countChar, ih]
      by_cases hb : c = backslashChar
      · simp [hb]
        omega
      · simp [hb]

theorem squote_ne_backslash : squoteChar ≠ backslashChar := by decide

theorem dquote_ne_backslash : dquoteChar ≠ backslashChar := by decide

theorem squote_ne_dquote : squoteChar ≠ dquoteChar := by decide

/-- C3: for a non-JSX-attribute string literal value with n double quotes and
m single quotes, prefer-double picks single quotes iff m < n (ties and m > n
pick double quotes) and prefer-single picks double quotes iff n < m; the
formatted output escapes the chosen quote character inside the value (every
occurrence of it is preceded by a backslash) while the opposite quote
character receives no escaping (its count is unchanged, and the only added
backslashes are those for the chosen quote). -/
theorem string_literal_quote_choice (v : List Char) (cfg : QuoteConfig) :
    (cfg.quote_style = QuoteStyle.PreferDouble →
      get_string_literal_text v false cfg =
        if countChar squoteChar v < countChar dquoteChar v then format_with_single v
        else format_with_double v) ∧
    (cfg.quote_style = QuoteStyle.PreferSingle →
      get_string_literal_text v false cfg =
        if countChar dquoteChar v < countChar squoteChar v then format_with_double v
        else format_with_single v) ∧
    quote_escaped_ok squoteChar none (replace_escape squoteChar v) = true ∧
    quote_escaped_ok dquoteChar none (replace_escape dquoteChar v) = true ∧
    countChar dquoteChar (replace_escape squoteChar v) = countChar dquoteChar v ∧
    countChar squoteChar (replace_escape dquoteChar v) = countChar squoteChar v ∧
    countChar backslashChar (replace_escape squoteChar v)
      = countChar backslashChar v + countChar squoteChar v ∧
    countChar backslashChar (replace_escape dquoteChar v)
      = countChar backslashChar v + countChar dquoteChar v := by
  refine ⟨?_, ?_, ?_, ?_, ?_, ?_, ?_, ?_⟩
  · intro h
    simp only [get_string_literal_text, if_neg (by simp : ¬ (false = true)), h,
      handle_prefer_double]
    by_cases hm : countChar squoteChar v < countChar dquoteChar v
    · rw [if_neg (by unfold double_to_single; omega), if_pos hm]
    · rw [if_pos (by unfold double_to_single; omega), if_neg hm]
  · intro h
    simp only [get_string_literal_text, if_neg (by simp : ¬ (false = true)), h,
      handle_prefer_single]
    by_cases hn : countChar dquoteChar v < countChar squoteChar v
    · rw [if_neg (by unfold double_to_single; omega), if_pos hn]
    · rw [if_pos (by unfold double_to_single; omega), if_neg hn]
  · exact quote_escaped_ok_replace squoteChar squote_ne_backslash v none
  · exact quote_escaped_ok_replace dquoteChar dquote_ne_backslash v none
  · exact countChar_replace_other dquoteChar squoteChar
      (fun h => squote_ne_dquote h.symm) dquote_ne_backslash v
  · exact countChar_replace_other squoteChar dquoteChar squote_ne_dquote
      squote_ne_backslash v
  · exact countChar_replace_backslash squoteChar squote_ne_backslash v
  · exact countChar_replace_backslash dquoteChar dquote_ne_backslash v

/-- Witness for C3 at a concrete value containing two double quotes and no
single quote under prefer-double: single quotes are chosen. -/
theorem string_literal_quote_choice_witness :
    get_string_literal_text [dquoteChar, dquoteChar] false
        ⟨QuoteStyle.PreferDouble, JsxQuoteStyle.PreferDouble⟩
      = format_with_single [dquoteChar, dquoteChar] := by
  have h := (string_literal_quote_choice [dquoteChar, dquoteChar]
    ⟨QuoteStyle.PreferDouble, JsxQuoteStyle.PreferDouble⟩).1 rfl
  rw [h, if_pos (by decide)]

/-! ## Trailing comma policy (generate.rs 6462-6496, 6028-6036, 3707-3714)

Three places force the trailing separator policy to Never when the last list
element is a rest pattern: get_trailing_commas inside
gen_parameters_or_arguments, allow_trailing_commas inside
gen_array_like_nodes, and get_trailing_commas inside gen_object_pat. The two
source functions named get_trailing_commas get distinct Lean names. -/

/-- Trailing comma policy of the configuration. -/
inductive TrailingCommas
  | Never
  | Always
  | OnlyMultiLine
  deriving DecidableEq

/-- Node kinds needed by the rest-pattern checks. -/
inductive NodeKind
  | RestPat
  | OtherKind
  deriving DecidableEq

/-- An element of a parameter or argument list as tested by is_param_rest_pat:
either a Param wrapping a pattern, or (for arrow functions and arguments) a
bare node. -/
inductive ParamsListNode
  | Param (pat_kind : NodeKind)
  | NonParam (kind : NodeKind)
  deriving DecidableEq

/-- Embeds is_param_rest_pat of gen_parameters_or_arguments. -/
def is_param_rest_pat : ParamsListNode → Bool
  | ParamsListNode.Param pk => pk == NodeKind.RestPat
  | ParamsListNode.NonParam k => k == NodeKind.RestPat

/-- Callee variants of a call expression that matter to is_dynamic_import. -/
inductive CalleeKind
  | ImportCallee
  | OtherCallee
  deriving DecidableEq

/-- The parent node of a parameter or argument list as inspected by
is_dynamic_import: a call expression with its callee, or anything else. -/
inductive ParamsParentNode
  | CallExprNode (callee : CalleeKind)
  | NonCallExpr
  deriving DecidableEq

/-- Embeds is_dynamic_import of gen_parameters_or_arguments. -/
def is_dynamic_import : ParamsParentNode → Bool
  | ParamsParentNode.CallExprNode CalleeKind.ImportCallee => true
  | _ => false

/-- The trailing comma configuration fields read by the embedded functions. -/
structure TrailingCommaConfig where
  parameters_trailing_commas : TrailingCommas
  arguments_trailing_commas : TrailingCommas
  object_pattern_trailing_commas : TrailingCommas
  deriving DecidableEq

/-- Embeds get_trailing_commas of gen_parameters_or_arguments: the last
element being a rest pattern forces Never, then dynamic import forces Never,
otherwise the configured policy for parameters or arguments applies. -/
def params_get_trailing_commas (node : ParamsParentNode) (nodes : List ParamsListNode)
    (is_parameters : Bool) (cfg : TrailingCommaConfig) : TrailingCommas :=
  if (nodes.getLast?.map is_param_rest_pat).getD false then TrailingCommas.Never
  else if is_dynamic_import node then TrailingCommas.Never
  else if is_parameters then cfg.parameters_trailing_commas
  else cfg.arguments_trailing_commas

/-- An element of an array-like node list: a node or a lone comma token. -/
inductive NodeOrSeparator
  | NodeItem (kind : NodeKind)
  | SeparatorItem
  deriving DecidableEq

/-- Embeds allow_trailing_commas of gen_array_like_nodes. -/
def allow_trailing_commas (nodes : List NodeOrSeparator) : Bool :=
  match nodes.getLast? with
  | some (NodeOrSeparator.NodeItem k) => !(k == NodeKind.RestPat)
  | _ => true

/-- Embeds the use site of allow_trailing_commas in gen_array_like_nodes:
the configured policy is kept only when trailing commas are allowed. -/
def array_like_trailing_commas (nodes : List NodeOrSeparator)
    (configured : TrailingCommas) : TrailingCommas :=
  if allow_trailing_commas nodes then configured else TrailingCommas.Never

/-- Embeds get_trailing_commas of gen_object_pat over the kinds of the
property list. -/
def object_pat_get_trailing_commas (props : List NodeKind)
    (cfg : TrailingCommaConfig) : TrailingCommas :=
  match props.getLast? with
  | some last =>
    if last == NodeKind.RestPat then TrailingCommas.Never
    else cfg.object_pattern_trailing_commas
  | none => cfg.object_pattern_trailing_commas

/-- C4: whenever the last element of a parameter list, array-like node list,
or object pattern property list is a rest pattern, the trailing separator
policy resolves to Never for every configured policy. -/
theorem rest_element_never_trailing_comma (cfg : TrailingCommaConfig) :
    (∀ (node : ParamsParentNode) (nodes : List ParamsListNode)
        (is_parameters : Bool) (last : ParamsListNode),
      nodes.getLast? = some last → is_param_rest_pat last = true →
      params_get_trailing_commas node nodes is_parameters cfg = TrailingCommas.Never) ∧
    (∀ (nodes : List NodeOrSeparator) (configured : TrailingCommas),
      nodes.getLast? = some (NodeOrSeparator.NodeItem NodeKind.RestPat) →
      array_like_trailing_commas nodes configured = TrailingCommas.Never) ∧
    (∀ (props : List NodeKind),
      props.getLast? = some NodeKind.RestPat →
      object_pat_get_trailing_commas props cfg = TrailingCommas.Never) := by
  refine ⟨?_, ?_, ?_⟩
  · intro node nodes is_parameters last hlast hrest
    simp [params_get_trailing_commas, hlast, hrest]
  · intro nodes configured hlast
    simp [array_like_trailing_commas, allow_trailing_commas, hlast]
  · intro props hlast
    simp [object_pat_get_trailing_commas, hlast]

/-- Witness for C4: concrete rest-final lists under an Always configuration
still get policy Never in all three places. -/
theorem rest_element_never_trailing_comma_witness :
    params_get_trailing_commas ParamsParentNode.NonCallExpr
        [ParamsListNode.Param NodeKind.RestPat] true
        ⟨TrailingCommas.Always, TrailingCommas.Always, TrailingCommas.Always⟩
      = TrailingCommas.Never ∧
    array_like_trailing_commas [NodeOrSeparator.NodeItem NodeKind.RestPat]
        TrailingCommas.Always = TrailingCommas.Never ∧
    object_pat_get_trailing_commas [NodeKind.RestPat]
        ⟨TrailingCommas.Always, TrailingCommas.Always, TrailingCommas.Always⟩
      = TrailingCommas.Never := by
  have h := rest_element_never_trailing_comma
    ⟨TrailingCommas.Always, TrailingCommas.Always, TrailingCommas.Always⟩
  exact ⟨h.1 ParamsParentNode.NonCallExpr [ParamsListNode.Param NodeKind.RestPat]
      true (ParamsListNode.Param NodeKind.RestPat) rfl rfl,
    h.2.1 [NodeOrSeparator.NodeItem NodeKind.RestPat] TrailingCommas.Always rfl,
    h.2.2 [NodeKind.RestPat] rfl⟩

/-- C10: a call expression whose callee is the dynamic import keyword always
gets trailing comma policy Never for its argument list, for every argument
list and every configured policy. -/
theorem dynamic_import_never_trailing_comma
    (nodes : List ParamsListNode) (is_parameters : Bool) (cfg : TrailingCommaConfig) :
    params_get_trailing_commas (ParamsParentNode.CallExprNode CalleeKind.ImportCallee)
        nodes is_parameters cfg = TrailingCommas.Never := by
  unfold params_get_trailing_commas
  by_cases h : (nodes.getLast?.map is_param_rest_pat).getD false
  · rw [if_pos h]
  · rw [if_neg h, if_pos (by rfl)]

/-! ## Parenthesized expression elision (generate.rs 2378-2479, 3146-3178)

should_skip_paren_expr decides whether gen_paren_expr drops the original
parentheses. The embedding captures, per field, exactly the queries the
source performs on the node, its inner expression, its parent and the
comment index. The while loop of is_jsx_paren_expr_handled_node that walks
enclosing paren expressions is folded into two precomputed facts about the
ancestor chain (whether any walked paren expression has surrounding
comments, and whether the first ancestor past the paren chain has one of the
disallowed kinds); the claim settled here never reaches that loop. -/

/-- Configuration values of jsxMultiLineParens. -/
inductive JsxMultiLineParens
  | Never
  | Prefer
  | Always
  deriving DecidableEq

/-- Kind of the inner expression of a parenthesized expression, with the
payloads should_skip_paren_expr inspects (for an assignment, whether the
left side is an object pattern). -/
inductive ExprKind
  | ArrowExpr
  | SeqExpr
  | ArrayLit
  | AssignExpr (left_is_object_pat : Bool)
  | JSXElementExpr
  | JSXFragmentExpr
  | OtherExpr
  deriving DecidableEq

/-- Kind of the parent of a parenthesized expression, with the payloads
should_skip_paren_expr inspects. A paren expression whose parent is a call
expression sits in callee position, since call arguments are wrapped in
ExprOrSpread nodes. -/
inductive ParenParentKind
  | ParenExpr
  | ExprStmt
  | JSXElement
  | JSXFragment
  | JSXExprContainer
  | UpdateExpr
  | ComputedPropName
  | AssignExpr (right_contains_node : Bool)
  | ExprOrSpread (grandparent_is_known : Bool) (is_spread : Bool)
  | MemberExpr (computed_prop_contains_node : Bool)
  | CallExprCallee
  | OtherParent
  deriving DecidableEq

/-- Facts about the surroundings of a JSX node consulted by the later checks
of is_jsx_paren_expr_handled_node. -/
structure JsxParenDetails where
  parent_is_jsx_element_or_fragment : Bool
  has_surrounding_comments : Bool
  paren_chain_has_surrounding_comments : Bool
  first_non_paren_parent_disallowed : Bool
  deriving DecidableEq

/-- Embeds is_jsx_paren_expr_handled_node: only a JSX element or fragment in
an allowed position is handled, and only when jsxMultiLineParens is not
Never. -/
def is_jsx_paren_expr_handled_node (cfg : JsxMultiLineParens) (kind : ExprKind)
    (d : JsxParenDetails) : Bool :=
  if cfg == JsxMultiLineParens.Never then false
  else if !(kind == ExprKind.JSXElementExpr || kind == ExprKind.JSXFragmentExpr) then false
  else if d.parent_is_jsx_element_or_fragment then false
  else if d.has_surrounding_comments then false
  else if d.paren_chain_has_surrounding_comments then false
  else if cfg == JsxMultiLineParens.Always then true
  else !d.first_non_paren_parent_disallowed

/-- View of a parenthesized expression node holding every input
should_skip_paren_expr reads: the inner expression kind, whether the inner
expression has surrounding comments, whether a leading block comment is a
JSDoc type assertion (starts with a star and contains an at-type tag), the
parent kind, and the JSX surroundings. -/
structure ParenExprView where
  expr_kind : ExprKind
  expr_has_surrounding_comments : Bool
  has_js_doc_type_assertion : Bool
  parent_kind : ParenParentKind
  jsx_details : JsxParenDetails
  deriving DecidableEq

/-- Embeds should_skip_paren_expr. The sequential early returns of the
source keyed on mutually exclusive parent kinds become one match. -/
def should_skip_paren_expr (cfg : JsxMultiLineParens) (v : ParenExprView) : Bool :=
  if v.expr_has_surrounding_comments then false
  else if (match v.expr_kind with
    | ExprKind.AssignExpr left_is_object_pat => left_is_object_pat
    | _ => false) then false
  else if v.expr_kind == ExprKind.SeqExpr then false
  else if v.has_js_doc_type_assertion then false
  else if v.expr_kind == ExprKind.ArrayLit then true
  else
    match v.parent_kind with
    | ParenParentKind.ParenExpr => true
    | ParenParentKind.ExprStmt => true
    | ParenParentKind.JSXElement => true
    | ParenParentKind.JSXFragment => true
    | ParenParentKind.JSXExprContainer => true
    | ParenParentKind.UpdateExpr => true
    | ParenParentKind.ComputedPropName => true
    | ParenParentKind.AssignExpr right_contains_node =>
      if right_contains_node then true
      else is_jsx_paren_expr_handled_node cfg v.expr_kind v.jsx_details
    | ParenParentKind.ExprOrSpread grandparent_is_known is_spread =>
      if grandparent_is_known && !is_spread then true
      else is_jsx_paren_expr_handled_node cfg v.expr_kind v.jsx_details
    | ParenParentKind.MemberExpr computed_prop_contains_node =>
      if computed_prop_contains_node then true
      else is_jsx_paren_expr_handled_node cfg v.expr_kind v.jsx_details
    | ParenParentKind.CallExprCallee =>
      is_jsx_paren_expr_handled_node cfg v.expr_kind v.jsx_details
    | ParenParentKind.OtherParent =>
      is_jsx_paren_expr_handled_node cfg v.expr_kind v.jsx_details

/-- C5: a parenthesized arrow function in call callee position is never
skipped, for every configuration and every comment surrounding, so the
parentheses are always retained. -/
theorem arrow_callee_keeps_parens (cfg : JsxMultiLineParens) (v : ParenExprView)
    (hkind : v.expr_kind = ExprKind.ArrowExpr)
    (hparent : v.parent_kind = ParenParentKind.CallExprCallee) :
    should_skip_paren_expr cfg v = false := by
  have hjsx : is_jsx_paren_expr_handled_node cfg v.expr_kind v.jsx_details = false := by
    rw [hkind]
    unfold is_jsx_paren_expr_handled_node
    by_cases hc : cfg == JsxMultiLineParens.Never
    · rw [if_pos hc]
    · rw [if_neg hc, if_pos (by rfl)]
  unfold should_skip_paren_expr
  rw [hkind, hparent]
  by_cases h1 : v.expr_has_surrounding_comments
  · rw [if_pos h1]
  · rw [if_neg h1]
    simp only [if_neg (by simp : ¬ (false = true))]
    by_cases h2 : v.has_js_doc_type_assertion
    · simp [h2]
    · simp only [h2, if_neg (by simp : ¬ (False : Prop)), if_false]
      simpa [hkind] using hjsx

/-- Witness for C5 at a fully concrete view: an arrow function inside parens
used as a call callee is not skipped. -/
theorem arrow_callee_keeps_parens_witness :
    should_skip_paren_expr JsxMultiLineParens.Prefer
        ⟨ExprKind.ArrowExpr, false, false, ParenParentKind.CallExprCallee,
          ⟨false, false, false, false⟩⟩ = false :=
  arrow_callee_keeps_parens JsxMultiLineParens.Prefer
    ⟨ExprKind.ArrowExpr, false, false, ParenParentKind.CallExprCallee,
      ⟨false, false, false, false⟩⟩ rfl rfl

/-! ## Conditional brace body (generate.rs 7407-7710)

gen_conditional_brace_body builds an open-brace condition whose resolver is
evaluated at layout time. The embedding models the body node by the data the
resolver depends on, the layout-time queries as Option Bool inputs (none
standing for a not yet resolved marker, which the source propagates with the
question mark operator), and the resolver itself verbatim. The two values
computed at generation time from opts.body_node, is_body_empty_stmt and
force_braces (get_force_braces), are recomputed from the body node here. -/

/-- Configuration values of the use-braces policy. -/
inductive UseBraces
  | Maintain
  | WhenNotSingleLine
  | Always
  | PreferNone
  deriving DecidableEq

/-- Body node of a control-flow statement as far as the open-brace resolver
inspects it: a block statement with its statement count, an empty statement
(a lone semicolon), or any other single statement. -/
inductive BodyNode
  | BlockStmt (stmt_count : Nat)
  | EmptyStmt
  | OtherSingleStmt
  deriving DecidableEq

/-- Embeds the test body_node.kind() == NodeKind::EmptyStmt. -/
def is_body_empty_stmt (body : BodyNode) : Bool := body == BodyNode.EmptyStmt

/-- Embeds get_force_braces of gen_conditional_brace_body: braces are forced
exactly for an empty block statement body. -/
def get_force_braces : BodyNode → Bool
  | BodyNode.BlockStmt stmt_count => stmt_count == 0
  | _ => false

/-- Layout-time queries consulted by the open-brace resolver. Each Option
Bool is the result of a condition_resolvers query, none meaning the
underlying marker is not yet resolved. -/
structure OpenBraceResolverInputs where
  is_multiple_lines_start_to_end : Option Bool
  has_header_infos : Bool
  is_header_multiple_lines : Option Bool
  is_statements_multiple_lines : Option Bool
  has_requires_braces_condition : Bool
  requires_braces : Option Bool
  deriving DecidableEq

/-- Embeds the openBrace condition resolver of gen_conditional_brace_body:
an empty statement body never gets braces; otherwise the configured policy
decides, with PreferNone still forcing braces for forced-brace or multi-line
bodies, multi-line headers, multi-line statements, and a previous arm that
required braces. -/
def open_brace_condition_resolver (body : BodyNode) (use_braces : UseBraces)
    (has_open_brace_token : Bool) (body_should_be_multi_line : Bool)
    (q : OpenBraceResolverInputs) : Option Bool :=
  if is_body_empty_stmt body then some false
  else
    match use_braces with
    | UseBraces.WhenNotSingleLine =>
      if get_force_braces body then some true
      else q.is_multiple_lines_start_to_end
    | UseBraces.Maintain => some (get_force_braces body || has_open_brace_token)
    | UseBraces.Always => some true
    | UseBraces.PreferNone =>
      if get_force_braces body || body_should_be_multi_line then some true
      else
        match (if q.has_header_infos then q.is_header_multiple_lines else some false) with
        | none => none
        | some true => some true
        | some false =>
          match q.is_statements_multiple_lines with
          | none => none
          | some true => some true
          | some false =>
            if q.has_requires_braces_condition then
              match q.requires_braces with
              | none => none
              | some true => some true
              | some false => some false
            else some false

/-- C6: for a block statement body containing zero statements the open-brace
condition resolves to true under every use-braces policy, in particular
under PreferNone, for all layout-time query results, so braces are
preserved. -/
theorem empty_block_body_forces_braces (use_braces : UseBraces)
    (has_open_brace_token : Bool) (body_should_be_multi_line : Bool)
    (q : OpenBraceResolverInputs) :
    open_brace_condition_resolver (BodyNode.BlockStmt 0) use_braces
      has_open_brace_token body_should_be_multi_line q = some true := by
  cases use_braces <;> rfl

/-- C9: for an empty statement body (a lone semicolon) the open-brace
condition resolves to false under every use-braces policy, including
Always, for all layout-time query results, so the body is never wrapped in
braces. -/
theorem empty_stmt_body_never_braced (use_braces : UseBraces)
    (has_open_brace_token : Bool) (body_should_be_multi_line : Bool)
    (q : OpenBraceResolverInputs) :
    open_brace_condition_resolver BodyNode.EmptyStmt use_braces
      has_open_brace_token body_should_be_multi_line q = some false := by
  cases use_braces <;> rfl

/-! ## Comment rendering and the handled-comments set (generate.rs 5745-5763)

gen_comment consults and updates the handled-comments set of the generation
context. The set itself lives in the context module outside src, so it is
modelled from the spec; the gating logic of gen_comment is embedded from the
source. -/

/-- Comment kinds of the external comment stream. -/
inductive CommentKind
  | Line
  | Block
  deriving DecidableEq

/-- A comment as the generators see it: kind, raw text, and its start
position, which identifies it in the handled set. -/
structure CommentModel where
  lo : Nat
  kind : CommentKind
  text : List Char
  deriving DecidableEq

/-- Modelled from the spec: the handled-comments set of the Generation
Context (spec section 3) lives in the context module outside src; it tracks
comments already emitted, keyed by position, and lookups are idempotent. -/
structure GenCtx where
  handled_comments : List Nat
  deriving DecidableEq

/-- Modelled from the spec: is_handled lookup on the handled-comments set. -/
def has_handled_comment (ctx : GenCtx) (c : CommentModel) : Bool :=
  decide (c.lo ∈ ctx.handled_comments)

/-- Modelled from the spec: mark_handled insertion into the handled-comments
set. -/
def mark_comment_handled (ctx : GenCtx) (c : CommentModel) : GenCtx :=
  ⟨c.lo :: ctx.handled_comments⟩

/-- New line character, for the JSDoc detection of gen_comment. -/
def nlChar : Char := Char.ofNat 10

/-- Star character, for the JSDoc detection of gen_comment. -/
def starChar : Char := Char.ofNat 42

/-- Splitting on new line characters, embedding str::split over a single
new line separator. -/
def split_on_nl : List Char → List (List Char)
  | [] => [[]]
  | c :: rest =>
    let r := split_on_nl rest
    if c == nlChar then [] :: r
    else
      match r with
      | [] => [[c]]
      | h :: t => (c :: h) :: t

/-- Embeds str::trim_start; Char.isWhitespace models the Rust whitespace
test. -/
def trim_start_chars (l : List Char) : List Char := l.dropWhile Char.isWhitespace

/-- Embeds str::trim; Char.isWhitespace models the Rust whitespace test. -/
def trim_chars (l : List Char) : List Char :=
  ((l.dropWhile Char.isWhitespace).reverse.dropWhile Char.isWhitespace).reverse

/-- Embeds is_js_doc of gen_comment: the text starts with a star, contains a
new line, and every line after the first starts, after leading whitespace,
with a star. -/
def is_js_doc (text : List Char) : Bool :=
  (match text with
    | c :: _ => c == starChar
    | [] => false)
  && text.contains nlChar
  && ((split_on_nl (trim_chars text)).drop 1).all fun line =>
      match trim_start_chars line with
      | c :: _ => c == starChar
      | [] => false

/-- The configuration field read by gen_comment for line comments. -/
structure CommentConfig where
  comment_line_force_space_after_slashes : Bool
  deriving DecidableEq

/-- Print items produced for one comment. The three renderers dispatched to
by gen_comment (gen_js_doc and the two ir_helpers comment renderers of the
external dprint_core crate) are recorded as constructors holding the inputs
they receive; which constructor is chosen follows the source dispatch. -/
inductive CommentIR
  | js_doc (text : List Char)
  | comment_block (text : List Char)
  | comment_line (text : List Char) (force_space : Bool)
  deriving DecidableEq

/-- Embeds the match of gen_comment on the comment kind. -/
def gen_comment_body (cfg : CommentConfig) (c : CommentModel) : CommentIR :=
  match c.kind with
  | CommentKind.Block =>
    if is_js_doc c.text then CommentIR.js_doc c.text else CommentIR.comment_block c.text
  | CommentKind.Line =>
    CommentIR.comment_line c.text cfg.comment_line_force_space_after_slashes

/-- Embeds gen_comment: return none for an already handled comment, else
mark the comment handled and produce its print items. -/
def gen_comment (cfg : CommentConfig) (c : CommentModel) (ctx : GenCtx) :
    Option CommentIR × GenCtx :=
  if has_handled_comment ctx c then (none, ctx)
  else (some (gen_comment_body cfg c), mark_comment_handled ctx c)

/-- C1: gen_comment emits nothing and leaves the context unchanged for an
already handled comment; otherwise it marks the comment handled before
producing its items; hence a repeated call on the same comment, in any
state, emits nothing the second time, so one comment is never rendered
twice. -/
theorem gen_comment_at_most_once (cfg : CommentConfig) (c : CommentModel) (ctx : GenCtx) :
    (has_handled_comment ctx c = true → gen_comment cfg c ctx = (none, ctx)) ∧
    (has_handled_comment ctx c = false →
      gen_comment cfg c ctx = (some (gen_comment_body cfg c), mark_comment_handled ctx c) ∧
      has_handled_comment (gen_comment cfg c ctx).2 c = true) ∧
    (gen_comment cfg c ((gen_comment cfg c ctx).2)).1 = none := by
  refine ⟨?_, ?_, ?_⟩
  · intro h
    simp only [has_handled_comment, decide_eq_true_eq] at h
    simp [gen_comment, has_handled_comment, h]
  · intro h
    simp only [has_handled_comment, decide_eq_false_iff_not] at h
    constructor
    · simp [gen_comment, has_handled_comment, h]
    · simp [gen_comment, has_handled_comment, mark_comment_handled, h]
  · by_cases h : c.lo ∈ ctx.handled_comments
    · simp [gen_comment, has_handled_comment, h]
    · simp [gen_comment, has_handled_comment, mark_comment_handled, h]

/-- Witness for C1 at a concrete comment and context: the first call emits
items, the repeat call emits nothing. -/
theorem gen_comment_at_most_once_witness :
    (gen_comment ⟨false⟩ ⟨5, CommentKind.Line, []⟩ ⟨[]⟩
      = (some (CommentIR.comment_line [] false), ⟨[5]⟩)) ∧
    (gen_comment ⟨false⟩ ⟨5, CommentKind.Line, []⟩
      ((gen_comment ⟨false⟩ ⟨5, CommentKind.Line, []⟩ ⟨[]⟩).2)).1 = none := by
  have h := gen_comment_at_most_once ⟨false⟩ ⟨5, CommentKind.Line, []⟩ ⟨[]⟩
  exact ⟨by simpa using (h.2.1 (by decide)).1, h.2.2⟩

/-! ## Print items and the root generate function (generate.rs 18-38)

The print item vocabulary of the external dprint_core crate is modelled
with the constructors this file needs: literal text, raw source text, the
new line signal, and an if_true condition holding a resolver over the
writer state of the layout engine. -/

/-- Writer state visible to condition resolvers at layout time. -/
structure WriterInfo where
  line_number : Nat
  column_number : Nat

/-- Print items, restricted to the constructors used by the claims. A
condition carries its name, a resolver over the writer state, and its true
path, which is the shape built by the if_true helper of dprint_core. -/
inductive PrintItem where
  | text (s : String)
  | raw_string (s : List Char)
  | signal_new_line
  | condition (name : String) (resolver : WriterInfo → Option Bool)
      (true_path : List PrintItem)

/-- Embeds the if_true helper: a condition with only a true path. -/
def if_true (name : String) (resolver : WriterInfo → Option Bool)
    (true_path : List PrintItem) : PrintItem :=
  PrintItem.condition name resolver true_path

/-- Embeds the endOfFileNewLine resolver closure of generate. -/
def end_of_file_new_line_resolver (w : WriterInfo) : Option Bool :=
  some (decide (w.column_number > 0) || decide (w.line_number > 0))

/-- Embeds generate: the print items of the whole program (produced by
gen_node on the program node, taken here as input) followed by the single
pushed endOfFileNewLine condition. -/
def generate (program_items : List PrintItem) : List PrintItem :=
  program_items ++
    [if_true "endOfFileNewLine" end_of_file_new_line_resolver [PrintItem.signal_new_line]]

/-- C8: generate appends after the program items exactly one trailing item,
the endOfFileNewLine condition whose true path is a single new line signal,
and its resolver always resolves, emitting the new line exactly when the
writer column number or line number is positive. -/
theorem generate_end_of_file_condition (program_items : List PrintItem) :
    generate program_items = program_items ++
      [PrintItem.condition "endOfFileNewLine" end_of_file_new_line_resolver
        [PrintItem.signal_new_line]] ∧
    ∀ w : WriterInfo,
      end_of_file_new_line_resolver w
        = some (decide (0 < w.column_number ∨ 0 < w.line_number)) := by
  constructor
  · rfl
  · intro w
    by_cases h1 : 0 < w.column_number <;> by_cases h2 : 0 < w.line_number <;>
      simp [end_of_file_new_line_resolver, h1, h2]

/-! ## Verbatim output for ignored nodes (generate.rs 89-101)

The has_ignore_comment branch of gen_node_with_inner_gen skips the
kind-specific generator: it pushes an empty string to force the current
line indentation, emits the raw source text of the node, and marks the
previous comments handled. -/

/-- Modelled from the spec: context.comments.trailing_comments_with_previous
lives in the comment index outside src. Per spec section 4.1 the index
returns all comments attached at the queried boundary; it is modelled
conservatively as returning every comment the index tracks, the caller
filtering by position. -/
def trailing_comments_with_previous (file_comments : List CommentModel) (_pos : Nat) :
    List CommentModel :=
  file_comments

/-- One step of the comment-marking loop of the ignore branch: comments
starting before the node end are marked handled. -/
def mark_previous_comment_step (node_hi : Nat) (acc : GenCtx) (c : CommentModel) : GenCtx :=
  if c.lo < node_hi then mark_comment_handled acc c else acc

/-- Embeds the has_ignore_comment branch of gen_node_with_inner_gen with the
identity inner generator used by gen_node: push an empty string, emit the
raw original source text of the node, and mark every previous comment
handled. -/
def gen_ignored_node (node_text : List Char) (node_hi : Nat)
    (file_comments : List CommentModel) (ctx : GenCtx) : List PrintItem × GenCtx :=
  let items := [PrintItem.text "", PrintItem.raw_string node_text]
  let ctx2 := (trailing_comments_with_previous file_comments node_hi).foldl
    (mark_previous_comment_step node_hi) ctx
  (items, ctx2)

theorem mark_previous_foldl_preserves (node_hi : Nat) (l : List CommentModel)
    (ctx : GenCtx) (x : Nat) (hx : x ∈ ctx.handled_comments) :
    x ∈ (l.foldl (mark_previous_comment_step node_hi) ctx).handled_comments := by
  induction l generalizing ctx with
  | nil => exact hx
  | cons c rest ih =>
    simp only [List.foldl_cons]
    apply ih
    unfold mark_previous_comment_step
    by_cases h : c.lo < node_hi
    · rw [if_pos h]
      exact List.mem_cons_of_mem _ hx
    · rwa [if_neg h]

theorem mark_previous_foldl_marks (node_hi : Nat) (l : List CommentModel)
    (ctx : GenCtx) (c : CommentModel) (hc : c ∈ l) (hlo : c.lo < node_hi) :
    c.lo ∈ (l.foldl (mark_previous_comment_step node_hi) ctx).handled_comments := by
  induction l generalizing ctx with
  | nil => cases hc
  | cons d rest ih =>
    simp only [List.foldl_cons]
    rcases List.mem_cons.mp hc with rfl | hmem
    · apply mark_previous_foldl_preserves
      unfold mark_previous_comment_step
      rw [if_pos hlo]
      exact List.mem_cons_self _ _
    · exact ih _ hmem

/-- C2: on the ignore path the emitted items are exactly the forced
indentation string followed by the raw original source text, and every
comment of the index starting before the node end is handled afterwards. -/
theorem ignored_node_verbatim_and_comments_handled (node_text : List Char)
    (node_hi : Nat) (file_comments : List CommentModel) (ctx : GenCtx)
    (c : CommentModel) (hc : c ∈ file_comments) (hlo : c.lo < node_hi) :
    (gen_ignored_node node_text node_hi file_comments ctx).1
      = [PrintItem.text "", PrintItem.raw_string node_text] ∧
    has_handled_comment (gen_ignored_node node_text node_hi file_comments ctx).2 c
      = true := by
  constructor
  · rfl
  · unfold gen_ignored_node has_handled_comment trailing_comments_with_previous
    simp only [decide_eq_true_eq]
    exact mark_previous_foldl_marks node_hi file_comments ctx c hc hlo

/-- Witness for C2 at a concrete node and comment: the comment starting
before the node end is handled and the items are the raw text. -/
theorem ignored_node_verbatim_witness :
    (gen_ignored_node [starChar] 10 [⟨3, CommentKind.Line, []⟩] ⟨[]⟩).1
      = [PrintItem.text "", PrintItem.raw_string [starChar]] ∧
    has_handled_comment (gen_ignored_node [starChar] 10 [⟨3, CommentKind.Line, []⟩] ⟨[]⟩).2
      ⟨3, CommentKind.Line, []⟩ = true :=
  ignored_node_verbatim_and_comments_handled [starChar] 10 [⟨3, CommentKind.Line, []⟩]
    ⟨[]⟩ ⟨3, CommentKind.Line, []⟩ (by decide) (by decide)

/-! ## Import statement grouping (get_stmt_groups, generate.rs 6237-6280)

get_stmt_groups splits a statement list into runs that are sorted as a unit.
The embedding keeps, per statement, the data the source reads: the kind
dispatch into Imports, Exports or Other, and the start and end lines. The
loop carries the current group and the end line of the previous import or
export statement; the loop body subexpressions new previous-end-line and
is_same_group are hoisted into named definitions. -/

/-- Group kinds of statement runs. -/
inductive StmtGroupKind
  | Imports
  | Exports
  | Other
  deriving DecidableEq

/-- Statement kinds distinguished by the group dispatch: import
declarations, export-all, named re-exports with a source, and everything
else (including named exports without a source). -/
inductive StmtKind
  | ImportDecl
  | ExportAll
  | NamedExportWithSrc
  | NamedExportNoSrc
  | OtherStmt
  deriving DecidableEq

/-- A statement as get_stmt_groups sees it. -/
structure GStmt where
  kind : StmtKind
  start_line : Nat
  end_line : Nat
  deriving DecidableEq

/-- Embeds the match computing stmt_group_kind in the loop. -/
def stmt_group_kind_of : StmtKind → StmtGroupKind
  | StmtKind.ImportDecl => StmtGroupKind.Imports
  | StmtKind.ExportAll => StmtGroupKind.Exports
  | StmtKind.NamedExportWithSrc => StmtGroupKind.Exports
  | StmtKind.NamedExportNoSrc => StmtGroupKind.Other
  | StmtKind.OtherStmt => StmtGroupKind.Other

/-- A group of statements sorted as one unit. -/
structure StmtGroup where
  kind : StmtGroupKind
  nodes : List GStmt
  deriving DecidableEq

/-- Embeds the update of previous_last_end_line: imports and exports record
their end line, other statements clear it. -/
def next_prev_end (stmt : GStmt) : Option Nat :=
  match stmt_group_kind_of stmt.kind with
  | StmtGroupKind.Imports => some stmt.end_line
  | StmtGroupKind.Exports => some stmt.end_line
  | StmtGroupKind.Other => none

/-- Embeds the is_same_group condition of the loop: same group kind, and for
statements grouped as imports or exports the statement must start no more
than one line
after the recorded previous end line. -/
def same_stmt_group (group : StmtGroup) (last_end_line : Option Nat) (stmt : GStmt) : Bool :=
  group.kind == stmt_group_kind_of stmt.kind &&
    (stmt_group_kind_of stmt.kind == StmtGroupKind.Other || last_end_line.isNone ||
      decide (last_end_line.getD 0 + 1 ≥ stmt.start_line))

/-- Embeds the loop of get_stmt_groups over the remaining statements, the
current group and the previous end line, emitting finished groups in
order. -/
def stmt_groups_loop : List GStmt → Option StmtGroup → Option Nat → List StmtGroup
  | [], none, _ => []
  | [], some g, _ => [g]
  | stmt :: rest, none, _ =>
    stmt_groups_loop rest (some ⟨stmt_group_kind_of stmt.kind, [stmt]⟩) (next_prev_end stmt)
  | stmt :: rest, some group, previous_last_end_line =>
    if same_stmt_group group previous_last_end_line stmt then
      stmt_groups_loop rest (some ⟨group.kind, group.nodes ++ [stmt]⟩) (next_prev_end stmt)
    else
      group :: stmt_groups_loop rest (some ⟨stmt_group_kind_of stmt.kind, [stmt]⟩)
        (next_prev_end stmt)

/-- Embeds get_stmt_groups. -/
def get_stmt_groups (stmts : List GStmt) : List StmtGroup :=
  stmt_groups_loop stmts none none

/-- Two statements appear at consecutive positions of a list. -/
def adjacent_pair (s1 s2 : GStmt) : List GStmt → Bool
  | [] => false
  | a :: rest => (a == s1 && rest.head? == some s2) || adjacent_pair s1 s2 rest

/-- First of the two imports of the C7 counterexample, ending on line 1. -/
def impFirst : GStmt := ⟨StmtKind.ImportDecl, 1, 1⟩

/-- Second of the two imports of the C7 counterexample, starting on line 3,
so exactly one blank line (line 2) separates the two imports. -/
def impSecond : GStmt := ⟨StmtKind.ImportDecl, 3, 3⟩

/-- C7 counterexample: two consecutive import declarations separated by
exactly one blank line land in two different groups, refuting the claim
that at most one blank line keeps them adjacent in one group. -/
theorem import_group_one_blank_line_counterexample :
    get_stmt_groups [impFirst, impSecond]
      = [⟨StmtGroupKind.Imports, [impFirst]⟩, ⟨StmtGroupKind.Imports, [impSecond]⟩] ∧
    ¬ ∃ g, g ∈ get_stmt_groups [impFirst, impSecond] ∧
        adjacent_pair impFirst impSecond g.nodes = true := by
  constructor
  · decide
  · decide

theorem adjacent_pair_append (s1 s2 : GStmt) :
    ∀ (l t : List GStmt), adjacent_pair s1 s2 l = true →
      adjacent_pair s1 s2 (l ++ t) = true := by
  intro l
  induction l with
  | nil => intro t h; cases h
  | cons a l ih =>
    intro t h
    simp only [adjacent_pair, Bool.or_eq_true, Bool.and_eq_true, List.cons_append] at h ⊢
    rcases h with ⟨h1, h2⟩ | h3
    · left
      refine ⟨h1, ?_⟩
      cases l with
      | nil => cases h2
      | cons b l2 => simpa using h2
    · right
      exact ih t h3

theorem adjacent_pair_at_end (s1 s2 : GStmt) :
    ∀ init : List GStmt, adjacent_pair s1 s2 (init ++ [s1, s2]) = true := by
  intro init
  induction init with
  | nil => simp [adjacent_pair]
  | cons a init ih =>
    simp only [List.cons_append, adjacent_pair, Bool.or_eq_true]
    right
    exact ih

theorem stmt_groups_loop_current_flows (s1 s2 : GStmt) :
    ∀ (rest : List GStmt) (g : StmtGroup) (prevEnd : Option Nat),
      adjacent_pair s1 s2 g.nodes = true →
      ∃ g2, g2 ∈ stmt_groups_loop rest (some g) prevEnd ∧
        adjacent_pair s1 s2 g2.nodes = true := by
  intro rest
  induction rest with
  | nil =>
    intro g prevEnd h
    exact ⟨g, by simp [stmt_groups_loop], h⟩
  | cons stmt rest ih =>
    intro g prevEnd h
    by_cases hsame : same_stmt_group g prevEnd stmt
    · have h2 : adjacent_pair s1 s2 (g.nodes ++ [stmt]) = true :=
        adjacent_pair_append s1 s2 g.nodes [stmt] h
      obtain ⟨g2, hmem, hadj⟩ := ih ⟨g.kind, g.nodes ++ [stmt]⟩ (next_prev_end stmt) h2
      refine ⟨g2, ?_, hadj⟩
      simpa [stmt_groups_loop, hsame] using hmem
    · refine ⟨g, ?_, h⟩
      simp [stmt_groups_loop, hsame]

theorem stmt_groups_loop_cons_import (s : GStmt) (rest : List GStmt)
    (current : Option StmtGroup) (prevEnd : Option Nat)
    (hs : stmt_group_kind_of s.kind = StmtGroupKind.Imports) :
    ∃ (emitted : List StmtGroup) (init : List GStmt),
      stmt_groups_loop (s :: rest) current prevEnd
        = emitted ++ stmt_groups_loop rest
            (some ⟨StmtGroupKind.Imports, init ++ [s]⟩) (some s.end_line) := by
  have hnext : next_prev_end s = some s.end_line := by
    unfold next_prev_end
    rw [hs]
  cases current with
  | none =>
    refine ⟨[], [], ?_⟩
    simp [stmt_groups_loop, hs, hnext]
  | some g =>
    by_cases hsame : same_stmt_group g prevEnd s
    · have hk : g.kind = StmtGroupKind.Imports := by
        unfold same_stmt_group at hsame
        rw [Bool.and_eq_true] at hsame
        exact (eq_of_beq hsame.1).trans hs
      refine ⟨[], g.nodes, ?_⟩
      simp [stmt_groups_loop, hsame, hnext, hk]
    · refine ⟨[g], [], ?_⟩
      simp [stmt_groups_loop, hsame, hnext, hs]

theorem grouped_imports_without_blank_line_loop (s1 s2 : GStmt) (post : List GStmt)
    (hs1 : stmt_group_kind_of s1.kind = StmtGroupKind.Imports)
    (hs2 : stmt_group_kind_of s2.kind = StmtGroupKind.Imports)
    (hline : s2.start_line ≤ s1.end_line + 1) :
    ∀ (pre : List GStmt) (current : Option StmtGroup) (prevEnd : Option Nat),
      ∃ g, g ∈ stmt_groups_loop (pre ++ s1 :: s2 :: post) current prevEnd ∧
        adjacent_pair s1 s2 g.nodes = true := by
  intro pre
  induction pre with
  | nil =>
    intro current prevEnd
    obtain ⟨emitted, init, heq⟩ :=
      stmt_groups_loop_cons_import s1 (s2 :: post) current prevEnd hs1
    have hsame : same_stmt_group ⟨StmtGroupKind.Imports, init ++ [s1]⟩
        (some s1.end_line) s2 = true := by
      simp [same_stmt_group, hs2]
      omega
    have hstep : stmt_groups_loop (s2 :: post)
        (some ⟨StmtGroupKind.Imports, init ++ [s1]⟩) (some s1.end_line)
        = stmt_groups_loop post
            (some ⟨StmtGroupKind.Imports, (init ++ [s1]) ++ [s2]⟩) (next_prev_end s2) := by
      simp [stmt_groups_loop, hsame]
    have hadj : adjacent_pair s1 s2 ((init ++ [s1]) ++ [s2]) = true := by
      rw [List.append_assoc]
      exact adjacent_pair_at_end s1 s2 init
    obtain ⟨g2, hmem, hadj2⟩ := stmt_groups_loop_current_flows s1 s2 post
      ⟨StmtGroupKind.Imports, (init ++ [s1]) ++ [s2]⟩ (next_prev_end s2) hadj
    refine ⟨g2, ?_, hadj2⟩
    rw [List.nil_append, heq, hstep]
    exact List.mem_append_right _ hmem
  | cons p pre ih =>
    intro current prevEnd
    rw [List.cons_append]
    cases current with
    | none =>
      obtain ⟨g2, hmem, hadj⟩ :=
        ih (some ⟨stmt_group_kind_of p.kind, [p]⟩) (next_prev_end p)
      exact ⟨g2, by simpa [stmt_groups_loop] using hmem, hadj⟩
    | some g =>
      by_cases hsame : same_stmt_group g prevEnd p
      · obtain ⟨g2, hmem, hadj⟩ :=
          ih (some ⟨g.kind, g.nodes ++ [p]⟩) (next_prev_end p)
        exact ⟨g2, by simpa [stmt_groups_loop, hsame] using hmem, hadj⟩
      · obtain ⟨g2, hmem, hadj⟩ :=
          ih (some ⟨stmt_group_kind_of p.kind, [p]⟩) (next_prev_end p)
        refine ⟨g2, ?_, hadj⟩
        simp only [stmt_groups_loop, if_neg hsame]
        exact List.mem_cons_of_mem _ hmem

/-- C7 amended: two consecutive import declarations stay adjacent members
of one sortable group exactly when no blank line separates them, that is
when the second starts at most one line after the first ends; this theorem
proves the positive direction for every statement list, and the
counterexample shows a single blank line already starts a new group. -/
theorem grouped_imports_without_blank_line (pre post : List GStmt) (s1 s2 : GStmt)
    (hs1 : stmt_group_kind_of s1.kind = StmtGroupKind.Imports)
    (hs2 : stmt_group_kind_of s2.kind = StmtGroupKind.Imports)
    (hline : s2.start_line ≤ s1.end_line + 1) :
    ∃ g, g ∈ get_stmt_groups (pre ++ s1 :: s2 :: post) ∧
      adjacent_pair s1 s2 g.nodes = true :=
  grouped_imports_without_blank_line_loop s1 s2 post hs1 hs2 hline pre none none

/-- Witness for the amended C7 at two concrete imports on consecutive
lines: they end up adjacent in one group. -/
theorem grouped_imports_without_blank_line_witness :
    ∃ g, g ∈ get_stmt_groups [⟨StmtKind.ImportDecl, 1, 1⟩, ⟨StmtKind.ImportDecl, 2, 2⟩] ∧
      adjacent_pair ⟨StmtKind.ImportDecl, 1, 1⟩ ⟨StmtKind.ImportDecl, 2, 2⟩ g.nodes
        = true :=
  grouped_imports_without_blank_line [] [] ⟨StmtKind.ImportDecl, 1, 1⟩
    ⟨StmtKind.ImportDecl, 2, 2⟩ rfl rfl (by decide)

end DprintTs
